import Mathlib

/-!
Verification of the Arisa daemon supervision and delivery layer.

Shallow embedding of the TypeScript sources:
- src/daemon/bridge.ts (queue variant): FIFO queue with a periodic retry tick
- src/daemon/bridge.ts (fallback variant): retry once after 3s, then invoke
  the fallback Claude CLI path
- src/daemon/fallback.ts: direct Claude CLI invocation, all failures caught
- src/daemon/lifecycle.ts: Core process supervision, crash counter, rolling
  stderr buffer, last-error accessor
- src/daemon/autofix.ts: rate-limited remediation trigger and outcome rule

Strings from the worker streams are modelled as List Char; wall-clock time is
modelled as Nat milliseconds. Nat truncated subtraction matches the JavaScript
comparisons of the sources: for a monotone clock the comparison now - t0 > W
agrees with the Nat one, and when now < t0 both sides classify the gap as
small. Effects are made explicit: HTTP attempts, process spawns and callback
invocations become input parameters or emitted events, and every catch block
of the source becomes a total match on an outcome type.
-/

set_option maxHeartbeats 1000000

namespace Arisa

/-- Whitespace class used by the embedding of the JavaScript trim method
(the ASCII core of the ECMAScript whitespace set). -/
def jsWS (c : Char) : Bool :=
  c = ' ' || c = '\t' || c = '\n' || c = '\r'

/-- Embedding of the JavaScript trim method on character lists: drop the
whitespace run at the front, then the whitespace run at the back. -/
def trimL (l : List Char) : List Char :=
  ((l.dropWhile jsWS).reverse.dropWhile jsWS).reverse

/-- Embedding of the JavaScript slice with a negative index, as used by
stderrBuf.slice(-STDERR_MAX) and coreError.slice(-300): keep the last n
elements. -/
def tailTake (n : Nat) (l : List Char) : List Char :=
  l.drop (l.length - n)

namespace Lifecycle

/-- src/daemon/lifecycle.ts: const STDERR_MAX = 2000. -/
def STDERR_MAX : Nat := 2000

/-- One iteration of the stderr reader loop in startCore:
stderrBuf += chunk; if (stderrBuf.length > STDERR_MAX)
stderrBuf = stderrBuf.slice(-STDERR_MAX). -/
def pushChunk (stderrBuf chunk : List Char) : List Char :=
  let b := stderrBuf ++ chunk
  if STDERR_MAX < b.length then b.drop (b.length - STDERR_MAX) else b

/-- The whole stderr capture loop of startCore over the sequence of chunks
delivered by the stream, starting from the empty buffer. -/
def captureStderr (chunks : List (List Char)) : List Char :=
  chunks.foldl pushChunk []

/-- End-of-stream handling in startCore:
if (stderrBuf.trim()) lastError = stderrBuf.trim(). The previous value of
lastError is kept when the trimmed buffer is empty. -/
def saveLastError (stderrBuf : List Char) (lastError : Option (List Char)) :
    Option (List Char) :=
  if trimL stderrBuf ≠ [] then some (trimL stderrBuf) else lastError

/-- The value returned by getCoreError after a sequence of worker exits whose
captured stderr buffers are bufs, starting from the initial lastError = null. -/
def getCoreErrorAfter (bufs : List (List Char)) : Option (List Char) :=
  bufs.foldl (fun prev buf => saveLastError buf prev) none

/-- Crash bookkeeping state of lifecycle.ts: crashCount and lastCrashAt. -/
structure CrashState where
  crashCount : Nat
  lastCrashAt : Nat
deriving DecidableEq, Repr

/-- Crash-loop window of the onExit handler: now - lastCrashAt < 10000. -/
def CRASH_WINDOW : Nat := 10000

/-- Warning threshold of the onExit handler: crashCount > 5. -/
def CRASH_THRESHOLD : Nat := 5

/-- The onExit handler of startCore, restricted to its crash bookkeeping:
increment crashCount when the gap since the previous crash is below the
window, else reset it to 1; stamp lastCrashAt; warn when crashCount > 5;
schedule a restart exactly when shouldRun holds. Returns
(new state, warning emitted, restart scheduled). -/
def onCoreExit (now : Nat) (shouldRun : Bool) (s : CrashState) :
    CrashState × Bool × Bool :=
  let count := if now - s.lastCrashAt < CRASH_WINDOW then s.crashCount + 1 else 1
  (⟨count, now⟩, decide (CRASH_THRESHOLD < count), shouldRun)

/-- A sequence of worker exits at the given times, collecting the warning
flag of each exit. -/
def crashRun (times : List Nat) (shouldRun : Bool) (s : CrashState) :
    CrashState × List Bool :=
  match times with
  | [] => (s, [])
  | t :: ts =>
      let r := onCoreExit t shouldRun s
      let rest := crashRun ts shouldRun r.1
      (rest.1, r.2.1 :: rest.2)

/-- Handle state of lifecycle.ts: the coreProcess handle (a pid when live)
and the shouldRun flag (desiredState). -/
structure LifecycleState where
  coreProcess : Option Nat
  shouldRun : Bool
deriving DecidableEq, Repr

/-- startCore of lifecycle.ts, restricted to its handle bookkeeping: return
immediately when shouldRun is false, otherwise spawn unconditionally and
store the new handle. Returns (new state, a process was spawned). -/
def startCore (newPid : Nat) (s : LifecycleState) : LifecycleState × Bool :=
  if !s.shouldRun then (s, false)
  else ({ s with coreProcess := some newPid }, true)

/-- stopCore of lifecycle.ts: clear shouldRun and the handle. -/
def stopCore (_s : LifecycleState) : LifecycleState :=
  { coreProcess := none, shouldRun := false }

end Lifecycle

namespace BridgeQueue

/-- src/daemon/bridge.ts (queue variant): const RETRY_INTERVAL = 2000. -/
def RETRY_INTERVAL : Nat := 2000

/-- src/daemon/bridge.ts (queue variant): const MAX_RETRY_TIME = 60_000. -/
def MAX_RETRY_TIME : Nat := 60000

/-- A queued message of bridge.ts: the payload is keyed by an id; enqueuedAt
is the Date.now() stamp taken when sendToCore pushed the entry. -/
structure QEntry where
  id : Nat
  enqueuedAt : Nat
deriving DecidableEq, Repr

/-- The expiry test of the retry tick: now - enqueuedAt > MAX_RETRY_TIME. -/
def expired (now : Nat) (e : QEntry) : Bool :=
  MAX_RETRY_TIME < now - e.enqueuedAt

/-- Settlement of a queue entry observed by its original caller. -/
inductive TickEvent where
  | resolved (e : QEntry)
  | rejected (e : QEntry)
deriving DecidableEq, Repr

/-- The expiry while loop of the retry tick:
while (queue.length > 0 && now - queue[0].enqueuedAt > MAX_RETRY_TIME)
reject and shift the head. Returns (remaining queue, expired entries in
the order they were shifted). -/
def expireOld (now : Nat) : List QEntry → List QEntry × List QEntry
  | [] => ([], [])
  | e :: rest =>
      if expired now e then
        let r := expireOld now rest
        (r.1, e :: r.2)
      else (e :: rest, [])

/-- One tick of the setInterval callback of startRetryLoop. coreUp tells
whether postToCore succeeds on this tick. An empty queue clears the timer
and does nothing. Otherwise: expire old heads, then attempt only the head
of the remaining queue; on success shift it and resolve its caller; on
failure leave the queue unchanged. Returns (new queue, settlement events
in order). -/
def tick (now : Nat) (coreUp : Bool) (q : List QEntry) :
    List QEntry × List TickEvent :=
  match q with
  | [] => ([], [])
  | _ :: _ =>
      let r := expireOld now q
      let evs := r.2.map TickEvent.rejected
      match r.1 with
      | [] => ([], evs)
      | item :: rest =>
          if coreUp then (rest, evs ++ [TickEvent.resolved item])
          else (item :: rest, evs)

/-- A run of consecutive retry ticks at the given times, with the worker
reachability fixed to coreUp, accumulating the settlement events. -/
def runTicks (coreUp : Bool) (times : List Nat) (q : List QEntry) :
    List QEntry × List TickEvent :=
  match times with
  | [] => (q, [])
  | t :: ts =>
      let r := tick t coreUp q
      let rest := runTicks coreUp ts r.1
      (rest.1, r.2 ++ rest.2)

/-- FIFO invariant of the bridge queue: entries carry nondecreasing
enqueuedAt stamps, as produced by pushing with a monotone Date.now(). -/
def FifoSorted (q : List QEntry) : Prop :=
  q.Pairwise (fun a b => a.enqueuedAt ≤ b.enqueuedAt)

end BridgeQueue

namespace Fallback

/-- Result of spawning the fallback Claude CLI process in fallback.ts:
either the process ran to completion with a captured stdout and exit code
(a timeout kill surfaces as a non-zero exit code), or Bun.spawn itself threw. -/
inductive SpawnOutcome where
  | ok (output : List Char) (exitCode : Int)
  | spawnError
deriving DecidableEq, Repr

/-- Fixed string returned by fallback.ts when the CLI exits non-zero. -/
def claudeFailedMsg : List Char :=
  "[Fallback mode] Claude CLI failed. Core is down and fallback is unavailable. Please check server logs.".toList

/-- Fixed string returned by the catch block of fallback.ts. -/
def claudeSpawnErrorMsg : List Char :=
  "[Fallback mode] Could not reach Claude CLI. Core is down and fallback is unavailable. Please check server logs.".toList

/-- Fixed string returned by fallback.ts when the CLI output trims to empty. -/
def emptyResponseMsg : List Char :=
  "[Fallback mode] Empty response from Claude CLI.".toList

/-- fallbackClaude of fallback.ts as a function of the spawn outcome. The
message and coreError arguments of the source only shape the prompt handed
to the spawned process, so they do not influence the returned text; the
spawn result is keyed by SpawnOutcome. Every failure is caught: the
function is total and always returns a string. -/
def fallbackClaude (outcome : SpawnOutcome) : List Char :=
  match outcome with
  | .spawnError => claudeSpawnErrorMsg
  | .ok output exitCode =>
      if exitCode ≠ 0 then claudeFailedMsg
      else if trimL output = [] then emptyResponseMsg
      else trimL output

end Fallback

namespace BridgeFallback

/-- src/daemon/bridge.ts (fallback variant): const RETRY_DELAY = 3000. -/
def RETRY_DELAY : Nat := 3000

/-- Body of a 2xx response from POST /message. -/
structure CoreResponse where
  text : List Char
deriving DecidableEq, Repr

/-- Observable effects of sendToCore, in program order: a postToCore attempt,
an onStatus invocation with its text, the fixed sleep, and the fallback
CLI invocation. -/
inductive SendEvent where
  | attempt (n : Nat)
  | status (text : List Char)
  | sleep (ms : Nat)
  | fallbackCall
deriving DecidableEq, Repr

/-- escapeHtml of bridge.ts. -/
def escapeHtml (l : List Char) : List Char :=
  l.flatMap fun c =>
    if c = '&' then "&amp;".toList
    else if c = '<' then "&lt;".toList
    else if c = '>' then "&gt;".toList
    else [c]

/-- The retrying notice passed to onStatus after the first failed attempt. -/
def retryingMsg : List Char :=
  "Core no responde, reintentando...".toList

/-- The onStatus text of the fallback branch when getCoreError returned a
captured error: the error preview is its last 300 characters. -/
def fallbackStatusWithError (coreError : List Char) : List Char :=
  "Core sigue caido. Error:\n<pre>".toList ++
    escapeHtml (if 300 < coreError.length then tailTake 300 coreError else coreError) ++
    "</pre>\nConsultando a Claude directo...".toList

/-- The onStatus text of the fallback branch when no error was captured. -/
def fallbackStatusNoError : List Char :=
  "Core sigue caido. Consultando a Claude directo...".toList

/-- sendToCore of the fallback bridge variant. attempt1 and attempt2 are the
outcomes of the two postToCore calls (none = the call threw: non-2xx status
or timeout); fbOutcome is the outcome of the fallback CLI spawn; coreError
is what getCoreError returns at escalation time. The message text argument
of the source only shapes the fallback prompt, so it does not appear.
Returns the response handed to the caller and the emitted events in order;
totality of the function embeds that sendToCore never raises. -/
def sendToCore (attempt1 attempt2 : Option CoreResponse)
    (fbOutcome : Fallback.SpawnOutcome) (coreError : Option (List Char)) :
    CoreResponse × List SendEvent :=
  match attempt1 with
  | some r => (r, [SendEvent.attempt 1])
  | none =>
      let evs1 := [SendEvent.attempt 1, SendEvent.status retryingMsg,
        SendEvent.sleep RETRY_DELAY, SendEvent.attempt 2]
      match attempt2 with
      | some r => (r, evs1)
      | none =>
          let statusEv := match coreError with
            | some ce => SendEvent.status (fallbackStatusWithError ce)
            | none => SendEvent.status fallbackStatusNoError
          (⟨Fallback.fallbackClaude fbOutcome⟩,
            evs1 ++ [statusEv, SendEvent.fallbackCall])

end BridgeFallback

namespace BridgeQueue

/-- Observable effects of the queue-variant sendToCore of bridge.ts, in
program order: a postToCore attempt, an onStatus invocation with its text,
a sleep, or pushing an entry onto the retry queue. The status and sleep
constructors exist so that their absence from an emitted event list is
expressible. -/
inductive QSendEvent where
  | attempt (n : Nat)
  | status (text : List Char)
  | sleep (ms : Nat)
  | enqueued (e : QEntry)
deriving DecidableEq, Repr

/-- sendToCore of the queue variant of bridge.ts: try postToCore once; on
success hand the response to the caller; on any failure push the message
onto the FIFO queue stamped with the current time and ensure the retry
loop is running — the caller then waits on the queue entry. This variant
performs no status callback, no fixed delay and no second attempt before
enqueueing. attempt1 is the outcome of the single postToCore call (none =
it threw); msgId keys the message payload and now is Date.now() at the
push. Returns (the response when settled at once, the new queue, the
emitted events in order). -/
def sendToCore (attempt1 : Option BridgeFallback.CoreResponse)
    (msgId now : Nat) (queue : List QEntry) :
    Option BridgeFallback.CoreResponse × List QEntry × List QSendEvent :=
  match attempt1 with
  | some r => (some r, queue, [QSendEvent.attempt 1])
  | none =>
      (none, queue ++ [⟨msgId, now⟩],
        [QSendEvent.attempt 1, QSendEvent.enqueued ⟨msgId, now⟩])

end BridgeQueue

namespace AutoFix

/-- src/daemon/autofix.ts: const COOLDOWN_MS = 120_000. -/
def COOLDOWN_MS : Nat := 120000

/-- src/daemon/autofix.ts: const MAX_ATTEMPTS = 3. -/
def MAX_ATTEMPTS : Nat := 3

/-- Rate-limit state of autofix.ts: attemptCount and lastAttemptAt. -/
structure AutoFixState where
  attemptCount : Nat
  lastAttemptAt : Nat
deriving DecidableEq, Repr

/-- The rate-limit gate at the start of attemptAutoFix: reset attemptCount
to 0 when the cooldown has elapsed; refuse (no spawn) when attemptCount
has reached MAX_ATTEMPTS; otherwise increment attemptCount and stamp
lastAttemptAt. Returns (a remediation process is spawned, new state). -/
def attemptAutoFixGate (now : Nat) (s : AutoFixState) : Bool × AutoFixState :=
  let s1 := if COOLDOWN_MS < now - s.lastAttemptAt then
    { s with attemptCount := 0 } else s
  if MAX_ATTEMPTS ≤ s1.attemptCount then (false, s1)
  else (true, { attemptCount := s1.attemptCount + 1, lastAttemptAt := now })

/-- A sequence of attemptAutoFix calls at the given times, tracking the
rate-limit state. -/
def autoFixRun (times : List Nat) (s : AutoFixState) : AutoFixState :=
  times.foldl (fun st t => (attemptAutoFixGate t st).2) s

/-- The outcome rule of attemptAutoFix for a completed agent run:
hasOutput = output.trim().length > 0; return false when
exitCode !== 0 && !hasOutput, and true on every other completed path. -/
def attemptAutoFixOutcome (exitCode : Int) (output : List Char) : Bool :=
  let hasOutput := decide (0 < (trimL output).length)
  if exitCode ≠ 0 && !hasOutput then false else true

end AutoFix

/-- Concrete chunk sequence used as a witness input: 3000 characters
delivered across two writes. -/
def exChunks : List (List Char) :=
  [List.replicate 1500 'a', List.replicate 1500 'b']

theorem tailTake_eq_self {n : Nat} {l : List Char} (h : l.length ≤ n) :
    tailTake n l = l := by
  unfold tailTake
  have : l.length - n = 0 := by omega
  simp [this]

theorem length_tailTake (n : Nat) (l : List Char) :
    (tailTake n l).length = l.length - (l.length - n) := by
  simp [tailTake]

theorem tailTake_length_le (n : Nat) (l : List Char) :
    (tailTake n l).length ≤ n := by
  rw [length_tailTake]; omega

theorem tailTake_append_tailTake (n : Nat) (A B : List Char) :
    tailTake n (tailTake n A ++ B) = tailTake n (A ++ B) := by
  rcases le_or_lt A.length n with h | h
  · rw [tailTake_eq_self h]
  · have hk : A.length - n ≤ A.length := Nat.sub_le _ _
    unfold tailTake
    rw [show List.drop (A.length - n) A ++ B = (A ++ B).drop (A.length - n) from
      (List.drop_append_of_le_length hk).symm, List.drop_drop]
    congr 1
    simp only [List.length_append, List.length_drop]
    omega

theorem dropWhile_idem (p : Char → Bool) (l : List Char) :
    List.dropWhile p (List.dropWhile p l) = List.dropWhile p l := by
  induction l with
  | nil => simp
  | cons a t ih =>
      by_cases h : p a
      · simp [List.dropWhile_cons, h, ih]
      · simp [List.dropWhile_cons, h]

theorem dropWhile_head_not {p : Char → Bool} {l : List Char}
    (h : List.dropWhile p l ≠ []) :
    ∃ a t, List.dropWhile p l = a :: t ∧ p a = false := by
  induction l with
  | nil => simp at h
  | cons a t ih =>
      by_cases hp : p a
      · rw [List.dropWhile_cons_of_pos hp] at h ⊢
        exact ih h
      · refine ⟨a, t, ?_, by simp [hp]⟩
        rw [List.dropWhile_cons_of_neg hp]

theorem getLast?_dropWhile (p : Char → Bool) (l : List Char)
    (h : List.dropWhile p l ≠ []) :
    (List.dropWhile p l).getLast? = l.getLast? := by
  induction l with
  | nil => simp at h
  | cons a t ih =>
      by_cases hp : p a
      · rw [List.dropWhile_cons_of_pos hp] at h ⊢
        have ht : t ≠ [] := by
          intro he; rw [he] at h; simp at h
        rw [ih h]
        rcases t with _ | ⟨b, t2⟩
        · exact absurd rfl ht
        · simp [List.getLast?_cons_cons]
      · rw [List.dropWhile_cons_of_neg hp]

theorem dropWhile_eq_self_of_head {p : Char → Bool} {w : List Char}
    (h : w = [] ∨ ∃ a t, w = a :: t ∧ p a = false) :
    List.dropWhile p w = w := by
  rcases h with h | ⟨a, t, rfl, ha⟩
  · simp [h]
  · rw [List.dropWhile_cons_of_neg (by simp [ha])]

theorem trimL_idem (l : List Char) : trimL (trimL l) = trimL l := by
  unfold trimL
  set m := l.dropWhile jsWS with hm
  set Y := m.reverse.dropWhile jsWS with hY
  have hfront : List.dropWhile jsWS Y.reverse = Y.reverse := by
    apply dropWhile_eq_self_of_head
    rcases eq_or_ne Y [] with hYnil | hYne
    · left; simp [hYnil]
    · right
      have hrev_ne : Y.reverse ≠ [] := by simpa using hYne
      rcases List.exists_cons_of_ne_nil hrev_ne with ⟨a, t, hat⟩
      refine ⟨a, t, hat, ?_⟩
      have h1 : Y.reverse.head? = some a := by simp [hat]
      have h2 : Y.reverse.head? = Y.getLast? := by simp
      have h3 : Y.getLast? = m.reverse.getLast? := by
        rw [hY]; exact getLast?_dropWhile _ _ hYne
      have h4 : m.reverse.getLast? = m.head? := by simp
      have hmne : m ≠ [] := by
        intro hmn
        rw [hY, hmn] at hYne; simp at hYne
      rcases dropWhile_head_not (p := jsWS) (l := l) (by rw [← hm]; exact hmne)
        with ⟨b, tb, hb, hbws⟩
      have h5 : m.head? = some b := by rw [hm, hb]; rfl
      have hab : a = b := by
        have := h1.symm.trans (h2.trans (h3.trans (h4.trans h5)))
        simpa using this
      rw [hab]; exact hbws
  rw [hfront, List.reverse_reverse, hY, dropWhile_idem]

theorem pushChunk_eq_tailTake (buf c : List Char) :
    Lifecycle.pushChunk buf c = tailTake Lifecycle.STDERR_MAX (buf ++ c) := by
  have hdef : Lifecycle.pushChunk buf c =
      if Lifecycle.STDERR_MAX < (buf ++ c).length then
        (buf ++ c).drop ((buf ++ c).length - Lifecycle.STDERR_MAX)
      else buf ++ c := rfl
  rw [hdef]
  by_cases h : Lifecycle.STDERR_MAX < (buf ++ c).length
  · rw [if_pos h]; rfl
  · rw [if_neg h, tailTake_eq_self (le_of_not_lt h)]

theorem foldl_pushChunk_eq (chunks : List (List Char)) :
    ∀ buf : List Char, buf.length ≤ Lifecycle.STDERR_MAX →
    chunks.foldl Lifecycle.pushChunk buf =
      tailTake Lifecycle.STDERR_MAX (buf ++ chunks.flatten) := by
  induction chunks with
  | nil =>
      intro buf h
      simp [tailTake_eq_self h]
  | cons c cs ih =>
      intro buf h
      rw [List.foldl_cons,
        ih _ (by rw [pushChunk_eq_tailTake]; exact tailTake_length_le _ _),
        pushChunk_eq_tailTake, tailTake_append_tailTake, List.flatten_cons,
        ← List.append_assoc]

/-- C7: when the diagnostic stream delivers more than STDERR_MAX = 2000
characters in total across its writes, the final buffer is exactly the last
2000 characters of the whole stream (oldest characters dropped first), its
length is exactly 2000, and after every write step (every chunk count k)
the buffer length never exceeds 2000. -/
theorem c7_stderr_tail_buffer (chunks : List (List Char))
    (h : Lifecycle.STDERR_MAX < chunks.flatten.length) :
    Lifecycle.captureStderr chunks = tailTake Lifecycle.STDERR_MAX chunks.flatten ∧
    (Lifecycle.captureStderr chunks).length = Lifecycle.STDERR_MAX ∧
    ∀ k, (Lifecycle.captureStderr (chunks.take k)).length ≤ Lifecycle.STDERR_MAX := by
  have hmain : Lifecycle.captureStderr chunks =
      tailTake Lifecycle.STDERR_MAX chunks.flatten := by
    unfold Lifecycle.captureStderr
    rw [foldl_pushChunk_eq chunks [] (by simp), List.nil_append]
  refine ⟨hmain, ?_, ?_⟩
  · rw [hmain, length_tailTake]; omega
  · intro k
    unfold Lifecycle.captureStderr
    rw [foldl_pushChunk_eq _ [] (by simp), List.nil_append]
    exact tailTake_length_le _ _

theorem c7_stderr_tail_buffer_witness :
    Lifecycle.captureStderr exChunks = tailTake Lifecycle.STDERR_MAX exChunks.flatten :=
  (c7_stderr_tail_buffer exChunks (by
    norm_num [exChunks, Lifecycle.STDERR_MAX])).1

theorem getCoreError_invariant_aux :
    ∀ (bufs : List (List Char)) (prev : Option (List Char)),
    (prev = none ∨ ∃ s, prev = some s ∧ s ≠ [] ∧ trimL s = s) →
    (bufs.foldl (fun p b => Lifecycle.saveLastError b p) prev = none ∨
      ∃ s, bufs.foldl (fun p b => Lifecycle.saveLastError b p) prev = some s ∧
        s ≠ [] ∧ trimL s = s) := by
  intro bufs
  induction bufs with
  | nil => intro prev h; exact h
  | cons b bs ih =>
      intro prev h
      rw [List.foldl_cons]
      apply ih
      by_cases hb : trimL b = []
      · simpa [Lifecycle.saveLastError, hb] using h
      · right
        exact ⟨trimL b, by simp [Lifecycle.saveLastError, hb], hb, trimL_idem b⟩

/-- C10: getCoreError never yields the empty string: after any sequence of
worker exits it is still null or holds a nonempty string fixed by trim; in
particular it never holds the empty string, it stays null while every
captured buffer trims to empty, and an exit whose captured stderr is
whitespace-only leaves the stored value unchanged. -/
theorem c10_getCoreError_never_empty (bufs : List (List Char)) :
    (Lifecycle.getCoreErrorAfter bufs = none ∨
      ∃ s, Lifecycle.getCoreErrorAfter bufs = some s ∧ s ≠ [] ∧ trimL s = s) ∧
    Lifecycle.getCoreErrorAfter bufs ≠ some [] ∧
    ((∀ b ∈ bufs, trimL b = []) → Lifecycle.getCoreErrorAfter bufs = none) ∧
    (∀ buf prev, trimL buf = [] → Lifecycle.saveLastError buf prev = prev) := by
  have hinv : Lifecycle.getCoreErrorAfter bufs = none ∨
      ∃ s, Lifecycle.getCoreErrorAfter bufs = some s ∧ s ≠ [] ∧ trimL s = s :=
    getCoreError_invariant_aux bufs none (Or.inl rfl)
  refine ⟨hinv, ?_, ?_, ?_⟩
  · intro hempty
    rcases hinv with hnone | ⟨s, hs, hne, _⟩
    · rw [hempty] at hnone; exact Option.noConfusion hnone
    · rw [hempty] at hs
      exact hne (Option.some.inj hs).symm
  · intro hall
    unfold Lifecycle.getCoreErrorAfter
    have : ∀ (bs : List (List Char)) (prev : Option (List Char)),
        (∀ b ∈ bs, trimL b = []) →
        bs.foldl (fun p b => Lifecycle.saveLastError b p) prev = prev := by
      intro bs
      induction bs with
      | nil => intro prev _; rfl
      | cons b bs ih =>
          intro prev hb
          rw [List.foldl_cons]
          rw [show Lifecycle.saveLastError b prev = prev by
            simp [Lifecycle.saveLastError, hb b (List.mem_cons_self b bs)]]
          exact ih prev (fun x hx => hb x (List.mem_cons_of_mem b hx))
    exact this bufs none hall
  · intro buf prev hbuf
    simp [Lifecycle.saveLastError, hbuf]

theorem c10_getCoreError_never_empty_witness :
    Lifecycle.saveLastError [' '] (some ['a']) = some ['a'] :=
  (c10_getCoreError_never_empty []).2.2.2 [' '] (some ['a']) (by decide)

/-- C9: for a completed remediation agent run the trigger success flag is
exactly (exitCode = 0) OR (the trimmed captured output is nonempty). -/
theorem c9_autofix_outcome (c : Int) (o : List Char) :
    AutoFix.attemptAutoFixOutcome c o =
      (decide (c = 0) || decide (0 < (trimL o).length)) := by
  by_cases hc : c = 0 <;> by_cases ho : 0 < (trimL o).length <;>
    simp [AutoFix.attemptAutoFixOutcome, hc, ho]

theorem c9_autofix_outcome_witness :
    AutoFix.attemptAutoFixOutcome 2 "x".toList =
      (decide ((2 : Int) = 0) || decide (0 < (trimL "x".toList).length)) :=
  c9_autofix_outcome 2 "x".toList

theorem attemptAutoFixGate_of_cooldown (now : Nat) (s : AutoFix.AutoFixState)
    (h : AutoFix.COOLDOWN_MS < now - s.lastAttemptAt) :
    AutoFix.attemptAutoFixGate now s = (true, ⟨1, now⟩) := by
  have hdef : AutoFix.attemptAutoFixGate now s =
      if AutoFix.MAX_ATTEMPTS ≤ (0 : Nat) then
        (false, ({ s with attemptCount := 0 } : AutoFix.AutoFixState))
      else (true, ⟨0 + 1, now⟩) := by
    unfold AutoFix.attemptAutoFixGate
    rw [if_pos h]
  rw [hdef, if_neg (by norm_num [AutoFix.MAX_ATTEMPTS])]

theorem attemptAutoFixGate_of_no_cooldown (now : Nat) (s : AutoFix.AutoFixState)
    (h : ¬ AutoFix.COOLDOWN_MS < now - s.lastAttemptAt) :
    AutoFix.attemptAutoFixGate now s =
      if AutoFix.MAX_ATTEMPTS ≤ s.attemptCount then (false, s)
      else (true, ⟨s.attemptCount + 1, now⟩) := by
  unfold AutoFix.attemptAutoFixGate
  rw [if_neg h]

theorem attemptAutoFixGate_count_le (now : Nat) (s : AutoFix.AutoFixState)
    (h : s.attemptCount ≤ AutoFix.MAX_ATTEMPTS) :
    (AutoFix.attemptAutoFixGate now s).2.attemptCount ≤ AutoFix.MAX_ATTEMPTS := by
  by_cases hc : AutoFix.COOLDOWN_MS < now - s.lastAttemptAt
  · rw [attemptAutoFixGate_of_cooldown now s hc]
    norm_num [AutoFix.MAX_ATTEMPTS]
  · rw [attemptAutoFixGate_of_no_cooldown now s hc]
    by_cases hcap : AutoFix.MAX_ATTEMPTS ≤ s.attemptCount
    · rw [if_pos hcap]; exact h
    · rw [if_neg hcap]
      simp only []
      omega

theorem autoFixRun_count_le (times : List Nat) :
    ∀ s : AutoFix.AutoFixState, s.attemptCount ≤ AutoFix.MAX_ATTEMPTS →
    (AutoFix.autoFixRun times s).attemptCount ≤ AutoFix.MAX_ATTEMPTS := by
  induction times with
  | nil => intro s h; exact h
  | cons t ts ih =>
      intro s h
      unfold AutoFix.autoFixRun at *
      rw [List.foldl_cons]
      exact ih _ (attemptAutoFixGate_count_le t s h)

/-- C8: the remediation attempt counter never exceeds MAX_ATTEMPTS = 3: a
trigger arriving inside the cooldown with the counter at the cap is refused
with no spawn and leaves the state untouched; the counter only ever drops
when the cooldown has elapsed at the start of a trigger; and along any call
sequence the counter stays at most 3. -/
theorem c8_remediation_rate_limit (now : Nat) (s : AutoFix.AutoFixState)
    (hs : s.attemptCount ≤ AutoFix.MAX_ATTEMPTS) :
    (AutoFix.attemptAutoFixGate now s).2.attemptCount ≤ AutoFix.MAX_ATTEMPTS ∧
    (now - s.lastAttemptAt ≤ AutoFix.COOLDOWN_MS →
      AutoFix.MAX_ATTEMPTS ≤ s.attemptCount →
      AutoFix.attemptAutoFixGate now s = (false, s)) ∧
    ((AutoFix.attemptAutoFixGate now s).2.attemptCount < s.attemptCount →
      AutoFix.COOLDOWN_MS < now - s.lastAttemptAt) ∧
    (∀ times, (AutoFix.autoFixRun times s).attemptCount ≤ AutoFix.MAX_ATTEMPTS) := by
  refine ⟨attemptAutoFixGate_count_le now s hs, ?_, ?_, fun times => autoFixRun_count_le times s hs⟩
  · intro hcool hcap
    rw [attemptAutoFixGate_of_no_cooldown now s (by omega), if_pos hcap]
  · intro hdrop
    by_contra hncool
    rw [attemptAutoFixGate_of_no_cooldown now s hncool] at hdrop
    by_cases hcap : AutoFix.MAX_ATTEMPTS ≤ s.attemptCount
    · rw [if_pos hcap] at hdrop
      exact absurd hdrop (lt_irrefl _)
    · rw [if_neg hcap] at hdrop
      simp only [] at hdrop
      omega

theorem c8_remediation_rate_limit_witness :
    AutoFix.attemptAutoFixGate 0 ⟨3, 0⟩ = (false, ⟨3, 0⟩) :=
  (c8_remediation_rate_limit 0 ⟨3, 0⟩ (by decide)).2.1 (by decide) (by decide)

/-- C6 counterexample: with a live handle registered (coreProcess = some 1)
and shouldRun = true, calling startCore again does spawn a second process
and replaces the stored handle, refuting the claimed no-op. -/
theorem c6_start_not_idempotent_counterexample :
    (Lifecycle.startCore 2 ⟨some 1, true⟩).2 = true ∧
    (Lifecycle.startCore 2 ⟨some 1, true⟩).1.coreProcess = some 2 := by
  decide

/-- C6 amended: startCore is a no-op exactly when shouldRun is false; when
shouldRun holds it spawns unconditionally — even with a live handle already
registered — and overwrites the handle with the new process. -/
theorem c6_start_noop_only_when_stopped (pid : Nat) (s : Lifecycle.LifecycleState) :
    (s.shouldRun = false → Lifecycle.startCore pid s = (s, false)) ∧
    (s.shouldRun = true →
      Lifecycle.startCore pid s = ({ s with coreProcess := some pid }, true)) := by
  cases hs : s.shouldRun <;> simp [Lifecycle.startCore, hs]

theorem c6_start_noop_only_when_stopped_witness :
    Lifecycle.startCore 7 ⟨none, false⟩ = (⟨none, false⟩, false) :=
  (c6_start_noop_only_when_stopped 7 ⟨none, false⟩).1 rfl

/-- C5: six worker exits with consecutive gaps below the crash window give
warning flags [false, false, false, false, false, true] — the warning fires
exactly once, at the sixth crash, when the counter first exceeds 5; a gap
below the window increments the counter and a gap at or above it resets the
counter to 1; and the restart decision equals shouldRun regardless of the
counter, so the warning never prevents the scheduled restart. -/
theorem c5_crash_loop_warning (t1 t2 t3 t4 t5 t6 : Nat) (sr : Bool)
    (h12 : t2 - t1 < Lifecycle.CRASH_WINDOW) (h23 : t3 - t2 < Lifecycle.CRASH_WINDOW)
    (h34 : t4 - t3 < Lifecycle.CRASH_WINDOW) (h45 : t5 - t4 < Lifecycle.CRASH_WINDOW)
    (h56 : t6 - t5 < Lifecycle.CRASH_WINDOW) :
    (Lifecycle.crashRun [t1, t2, t3, t4, t5, t6] sr ⟨0, 0⟩).2 =
      [false, false, false, false, false, true] ∧
    (∀ now s, now - s.lastCrashAt < Lifecycle.CRASH_WINDOW →
      (Lifecycle.onCoreExit now sr s).1.crashCount = s.crashCount + 1) ∧
    (∀ now s, Lifecycle.CRASH_WINDOW ≤ now - s.lastCrashAt →
      (Lifecycle.onCoreExit now sr s).1.crashCount = 1) ∧
    (∀ now s, (Lifecycle.onCoreExit now sr s).2.2 = sr) := by
  refine ⟨?_, ?_, ?_, ?_⟩
  · have s1 : Lifecycle.onCoreExit t1 sr ⟨0, 0⟩ = (⟨1, t1⟩, false, sr) := by
      unfold Lifecycle.onCoreExit
      have h0 : (if t1 - 0 < Lifecycle.CRASH_WINDOW then 0 + 1 else 1) = 1 := by
        split <;> rfl
      simp only [h0]
      rfl
    have s2 : Lifecycle.onCoreExit t2 sr ⟨1, t1⟩ = (⟨2, t2⟩, false, sr) := by
      unfold Lifecycle.onCoreExit
      simp only [if_pos h12]
      rfl
    have s3 : Lifecycle.onCoreExit t3 sr ⟨2, t2⟩ = (⟨3, t3⟩, false, sr) := by
      unfold Lifecycle.onCoreExit
      simp only [if_pos h23]
      rfl
    have s4 : Lifecycle.onCoreExit t4 sr ⟨3, t3⟩ = (⟨4, t4⟩, false, sr) := by
      unfold Lifecycle.onCoreExit
      simp only [if_pos h34]
      rfl
    have s5 : Lifecycle.onCoreExit t5 sr ⟨4, t4⟩ = (⟨5, t5⟩, false, sr) := by
      unfold Lifecycle.onCoreExit
      simp only [if_pos h45]
      rfl
    have s6 : Lifecycle.onCoreExit t6 sr ⟨5, t5⟩ = (⟨6, t6⟩, true, sr) := by
      unfold Lifecycle.onCoreExit
      simp only [if_pos h56]
      rfl
    simp [Lifecycle.crashRun, s1, s2, s3, s4, s5, s6]
  · intro now s h
    unfold Lifecycle.onCoreExit
    simp only [if_pos h]
  · intro now s h
    unfold Lifecycle.onCoreExit
    simp only [if_neg (by omega : ¬ now - s.lastCrashAt < Lifecycle.CRASH_WINDOW)]
  · intro now s
    unfold Lifecycle.onCoreExit
    rfl

theorem c5_crash_loop_warning_witness :
    (Lifecycle.crashRun [0, 1, 2, 3, 4, 5] true ⟨0, 0⟩).2 =
      [false, false, false, false, false, true] :=
  (c5_crash_loop_warning 0 1 2 3 4 5 true (by decide) (by decide) (by decide)
    (by decide) (by decide)).1

theorem expireOld_eq (now : Nat) (q : List BridgeQueue.QEntry) :
    BridgeQueue.expireOld now q =
      (q.dropWhile (BridgeQueue.expired now), q.takeWhile (BridgeQueue.expired now)) := by
  induction q with
  | nil => rfl
  | cons e rest ih =>
      by_cases h : BridgeQueue.expired now e
      · simp [BridgeQueue.expireOld, h, ih, List.dropWhile_cons, List.takeWhile_cons]
      · simp [BridgeQueue.expireOld, h, List.dropWhile_cons, List.takeWhile_cons]

theorem tick_cons (now : Nat) (up : Bool) (e : BridgeQueue.QEntry)
    (rest : List BridgeQueue.QEntry) :
    BridgeQueue.tick now up (e :: rest) =
      match (e :: rest).dropWhile (BridgeQueue.expired now), up with
      | [], _ =>
          ([], ((e :: rest).takeWhile (BridgeQueue.expired now)).map
            BridgeQueue.TickEvent.rejected)
      | item :: r, true =>
          (r, ((e :: rest).takeWhile (BridgeQueue.expired now)).map
            BridgeQueue.TickEvent.rejected ++ [BridgeQueue.TickEvent.resolved item])
      | item :: r, false =>
          (item :: r, ((e :: rest).takeWhile (BridgeQueue.expired now)).map
            BridgeQueue.TickEvent.rejected) := by
  simp only [BridgeQueue.tick, expireOld_eq]
  cases hdp : (e :: rest).dropWhile (BridgeQueue.expired now) <;> cases up <;> simp

theorem tick_false_eq (now : Nat) (q : List BridgeQueue.QEntry) :
    BridgeQueue.tick now false q =
      (q.dropWhile (BridgeQueue.expired now),
        (q.takeWhile (BridgeQueue.expired now)).map BridgeQueue.TickEvent.rejected) := by
  cases q with
  | nil => rfl
  | cons e rest =>
      rw [tick_cons]
      cases hdp : (e :: rest).dropWhile (BridgeQueue.expired now) <;> simp [hdp]

theorem tick_resolve (now : Nat) (e : BridgeQueue.QEntry)
    (rest : List BridgeQueue.QEntry) (h : BridgeQueue.expired now e = false) :
    BridgeQueue.tick now true (e :: rest) = (rest, [BridgeQueue.TickEvent.resolved e]) := by
  rw [tick_cons]
  rw [List.dropWhile_cons_of_neg (by simp [h]), List.takeWhile_cons_of_neg (by simp [h])]
  simp

theorem runTicks_drain (times : List Nat) :
    ∀ q : List BridgeQueue.QEntry,
    (∀ t ∈ times, ∀ e ∈ q, t ≤ e.enqueuedAt + BridgeQueue.MAX_RETRY_TIME) →
    q.length ≤ times.length →
    BridgeQueue.runTicks true times q = ([], q.map BridgeQueue.TickEvent.resolved) := by
  induction times with
  | nil =>
      intro q _ hlen
      have hq : q = [] := List.eq_nil_of_length_eq_zero (Nat.le_zero.mp hlen)
      subst hq; rfl
  | cons t ts ih =>
      intro q h hlen
      cases q with
      | nil =>
          have hnil : BridgeQueue.tick t true [] = ([], []) := rfl
          simp [BridgeQueue.runTicks, hnil, ih [] (by simp) (by simp)]
      | cons e rest =>
          have hne : BridgeQueue.expired t e = false := by
            have hle := h t (List.mem_cons_self _ _) e (List.mem_cons_self _ _)
            simp only [BridgeQueue.expired, BridgeQueue.MAX_RETRY_TIME,
              decide_eq_false_iff_not] at *
            omega
          have hrest := ih rest
            (fun t2 ht2 e2 he2 => h t2 (List.mem_cons_of_mem _ ht2) e2
              (List.mem_cons_of_mem _ he2))
            (by simp at hlen ⊢; omega)
          simp [BridgeQueue.runTicks, tick_resolve t e rest hne, hrest]

/-- C1: with the worker reachable at every retry tick and every queued entry
inside the retry window, running at least as many ticks as there are queued
entries settles the whole FIFO queue: the emitted events are exactly the
queued entries mapped to resolved in original submission order — each entry
delivered exactly once, no reordering, no duplication — and the queue
empties; moreover any single tick resolves at most one entry (only the head
is attempted, and its caller is resolved before the next entry is
considered on a later tick). -/
theorem c1_queue_fifo_exactly_once (times : List Nat) (q : List BridgeQueue.QEntry)
    (hwin : ∀ t ∈ times, ∀ e ∈ q, t ≤ e.enqueuedAt + BridgeQueue.MAX_RETRY_TIME)
    (hlen : q.length ≤ times.length) :
    BridgeQueue.runTicks true times q = ([], q.map BridgeQueue.TickEvent.resolved) ∧
    ∀ (now : Nat) (up : Bool) (q2 : List BridgeQueue.QEntry),
      ((BridgeQueue.tick now up q2).2.countP fun ev =>
        match ev with
        | BridgeQueue.TickEvent.resolved _ => true
        | BridgeQueue.TickEvent.rejected _ => false) ≤ 1 := by
  refine ⟨runTicks_drain times q hwin hlen, ?_⟩
  intro now up q2
  cases q2 with
  | nil =>
      rw [show (BridgeQueue.tick now up []).2 = [] from rfl]
      simp
  | cons e rest =>
      rw [tick_cons]
      cases hdp : (e :: rest).dropWhile (BridgeQueue.expired now) <;> cases up <;>
        simp [List.countP_append, List.countP_map, Function.comp_def, List.countP_cons]

theorem c1_queue_fifo_exactly_once_witness :
    BridgeQueue.runTicks true [2000, 4000] [⟨0, 0⟩, ⟨1, 100⟩] =
      ([], [BridgeQueue.TickEvent.resolved ⟨0, 0⟩,
        BridgeQueue.TickEvent.resolved ⟨1, 100⟩]) :=
  (c1_queue_fifo_exactly_once [2000, 4000] [⟨0, 0⟩, ⟨1, 100⟩]
    (by decide) (by decide)).1

theorem mem_dropWhile_not_expired (now : Nat) (q : List BridgeQueue.QEntry)
    (hs : BridgeQueue.FifoSorted q) :
    ∀ x ∈ q.dropWhile (BridgeQueue.expired now), BridgeQueue.expired now x = false := by
  induction q with
  | nil => simp
  | cons a t ih =>
      intro x hx
      rcases List.pairwise_cons.mp hs with ⟨hhead, htail⟩
      by_cases ha : BridgeQueue.expired now a
      · rw [List.dropWhile_cons_of_pos ha] at hx
        exact ih htail x hx
      · rw [List.dropWhile_cons_of_neg (by simpa using ha)] at hx
        rcases List.mem_cons.mp hx with rfl | hx2
        · simpa using ha
        · have hle := hhead x hx2
          have ha2 : ¬ (60000 < now - a.enqueuedAt) := by
            simpa [BridgeQueue.expired, BridgeQueue.MAX_RETRY_TIME] using ha
          simp only [BridgeQueue.expired, BridgeQueue.MAX_RETRY_TIME,
            decide_eq_false_iff_not]
          omega

theorem mem_takeWhile_of_expired (now : Nat) (q : List BridgeQueue.QEntry)
    (e : BridgeQueue.QEntry) (hs : BridgeQueue.FifoSorted q) (he : e ∈ q)
    (hex : BridgeQueue.expired now e = true) :
    e ∈ q.takeWhile (BridgeQueue.expired now) := by
  have hsplit := List.takeWhile_append_dropWhile (BridgeQueue.expired now) q
  have : e ∈ q.takeWhile (BridgeQueue.expired now) ++
      q.dropWhile (BridgeQueue.expired now) := by rw [hsplit]; exact he
  rcases List.mem_append.mp this with h | h
  · exact h
  · rw [mem_dropWhile_not_expired now q hs e h] at hex
    exact Bool.noConfusion hex

theorem tick_events_shape (now : Nat) (up : Bool) (q : List BridgeQueue.QEntry) :
    ∀ ev ∈ (BridgeQueue.tick now up q).2,
      (∃ x ∈ q.takeWhile (BridgeQueue.expired now),
        ev = BridgeQueue.TickEvent.rejected x) ∨
      (∃ x, ev = BridgeQueue.TickEvent.resolved x) := by
  cases q with
  | nil => intro ev hev; exact absurd hev (by simp [BridgeQueue.tick])
  | cons e rest =>
      rw [tick_cons]
      cases hdp : (e :: rest).dropWhile (BridgeQueue.expired now) with
      | nil =>
          cases up <;>
          · intro ev hev
            simp only [List.mem_map] at hev
            rcases hev with ⟨x, hx, hxe⟩
            exact Or.inl ⟨x, hx, hxe.symm⟩
      | cons item r =>
          cases up with
          | false =>
              intro ev hev
              simp only [List.mem_map] at hev
              rcases hev with ⟨x, hx, hxe⟩
              exact Or.inl ⟨x, hx, hxe.symm⟩
          | true =>
              intro ev hev
              simp only [List.mem_append, List.mem_map, List.mem_singleton] at hev
              rcases hev with ⟨x, hx, hxe⟩ | rfl
              · exact Or.inl ⟨x, hx, hxe.symm⟩
              · exact Or.inr ⟨item, rfl⟩

/-- C2: for an entry still queued at a retry tick, with the FIFO invariant
(nondecreasing enqueue stamps): the entry is never rejected at a tick whose
time is at most enqueuedAt + MAX_RETRY_TIME; at any tick strictly past that
bound with the worker still down, the caller of the entry settles as a
rejection and the entry leaves the queue; and the queue left behind by a
failed tick is exactly the non-expired suffix in original order, so expiry
removes entries from the head without blocking the entries behind them. -/
theorem c2_expiry_window (now : Nat) (q : List BridgeQueue.QEntry)
    (e : BridgeQueue.QEntry) (hs : BridgeQueue.FifoSorted q) (he : e ∈ q) :
    (∀ up, now ≤ e.enqueuedAt + BridgeQueue.MAX_RETRY_TIME →
      BridgeQueue.TickEvent.rejected e ∉ (BridgeQueue.tick now up q).2) ∧
    (e.enqueuedAt + BridgeQueue.MAX_RETRY_TIME < now →
      BridgeQueue.TickEvent.rejected e ∈ (BridgeQueue.tick now false q).2 ∧
      e ∉ (BridgeQueue.tick now false q).1) ∧
    (BridgeQueue.tick now false q).1 = q.dropWhile (BridgeQueue.expired now) := by
  refine ⟨?_, ?_, (tick_false_eq now q).symm ▸ rfl⟩
  · intro up hle hmem
    have hle2 : now ≤ e.enqueuedAt + 60000 := by
      simpa [BridgeQueue.MAX_RETRY_TIME] using hle
    rcases tick_events_shape now up q _ hmem with ⟨x, hx, hxe⟩ | ⟨x, hxe⟩
    · have hxeq : x = e := by
        cases hxe; rfl
      subst hxeq
      have hxex := List.mem_takeWhile_imp hx
      simp only [BridgeQueue.expired, BridgeQueue.MAX_RETRY_TIME,
        decide_eq_true_eq] at hxex
      omega
    · exact BridgeQueue.TickEvent.noConfusion hxe
  · intro hlt
    have hlt2 : e.enqueuedAt + 60000 < now := by
      simpa [BridgeQueue.MAX_RETRY_TIME] using hlt
    have hex : BridgeQueue.expired now e = true := by
      simp only [BridgeQueue.expired, BridgeQueue.MAX_RETRY_TIME, decide_eq_true_eq]
      omega
    constructor
    · rw [tick_false_eq]
      exact List.mem_map_of_mem _ (mem_takeWhile_of_expired now q e hs he hex)
    · rw [tick_false_eq]
      intro hmem
      rw [mem_dropWhile_not_expired now q hs e hmem] at hex
      exact Bool.noConfusion hex

theorem c2_expiry_window_witness :
    BridgeQueue.TickEvent.rejected ⟨0, 0⟩ ∈
      (BridgeQueue.tick 70000 false [⟨0, 0⟩, ⟨1, 100000⟩]).2 :=
  ((c2_expiry_window 70000 [⟨0, 0⟩, ⟨1, 100000⟩] ⟨0, 0⟩
    (by simp [BridgeQueue.FifoSorted]) (by simp)).2.1 (by decide)).1

/-- C3 counterexample: in the queue-and-drain variant of sendToCore
(bridge.ts lines 34-44, cited by the claim), a single failed postToCore
attempt is followed immediately by enqueueing: at this concrete input the
emitted events are exactly one attempt and the enqueue — no retrying
status, no 3s sleep and no second attempt precede the escalation, and the
entry is already queued — refuting the claim that escalation under the
queueing policy never follows a single failed attempt. -/
theorem c3_queue_enqueues_after_first_failure_counterexample :
    (BridgeQueue.sendToCore none 0 5000 []).2.2 =
      [BridgeQueue.QSendEvent.attempt 1,
       BridgeQueue.QSendEvent.enqueued ⟨0, 5000⟩] ∧
    (BridgeQueue.sendToCore none 0 5000 []).2.1 = [⟨0, 5000⟩] ∧
    BridgeQueue.QSendEvent.attempt 2 ∉ (BridgeQueue.sendToCore none 0 5000 []).2.2 ∧
    BridgeQueue.QSendEvent.sleep 3000 ∉ (BridgeQueue.sendToCore none 0 5000 []).2.2 := by
  refine ⟨rfl, rfl, ?_, ?_⟩ <;> decide

/-- C3 amended: the retry-once discipline belongs to the fallback variant
of sendToCore alone. In that variant a successful first attempt emits no
retry and no fallback; a failed first attempt is followed, in order, by
the onStatus retrying notice, the fixed 3s sleep and exactly one further
attempt; the fallback path is invoked exactly when both attempts fail; and
no call performs more than two delivery attempts. The queue-and-drain
variant of sendToCore instead escalates immediately: a successful first
attempt settles with that single attempt, and a failed first attempt
enqueues the message at once — one attempt, then the enqueue event, with
no status notice, no delay and no second attempt before queueing. -/
theorem c3_escalation_after_failures (a1 a2 : Option BridgeFallback.CoreResponse)
    (fb : Fallback.SpawnOutcome) (ce : Option (List Char))
    (msgId now : Nat) (queue : List BridgeQueue.QEntry) :
    (∀ r, a1 = some r →
      (BridgeFallback.sendToCore a1 a2 fb ce).2 = [BridgeFallback.SendEvent.attempt 1]) ∧
    (a1 = none →
      (BridgeFallback.sendToCore a1 a2 fb ce).2.take 4 =
        [BridgeFallback.SendEvent.attempt 1,
         BridgeFallback.SendEvent.status BridgeFallback.retryingMsg,
         BridgeFallback.SendEvent.sleep BridgeFallback.RETRY_DELAY,
         BridgeFallback.SendEvent.attempt 2]) ∧
    (BridgeFallback.SendEvent.fallbackCall ∈ (BridgeFallback.sendToCore a1 a2 fb ce).2 ↔
      a1 = none ∧ a2 = none) ∧
    ((BridgeFallback.sendToCore a1 a2 fb ce).2.countP
      (fun ev => match ev with
        | BridgeFallback.SendEvent.attempt _ => true
        | _ => false) ≤ 2) ∧
    (∀ r, a1 = some r →
      BridgeQueue.sendToCore a1 msgId now queue = (some r, queue,
        [BridgeQueue.QSendEvent.attempt 1])) ∧
    (a1 = none →
      BridgeQueue.sendToCore a1 msgId now queue = (none, queue ++ [⟨msgId, now⟩],
        [BridgeQueue.QSendEvent.attempt 1,
         BridgeQueue.QSendEvent.enqueued ⟨msgId, now⟩])) := by
  rcases a1 with _ | r1 <;> rcases a2 with _ | r2 <;> rcases ce with _ | ce0 <;>
    simp [BridgeFallback.sendToCore, BridgeQueue.sendToCore, List.countP_cons]

theorem c3_escalation_after_failures_witness :
    BridgeQueue.sendToCore none 1 2000 [] =
      (none, [⟨1, 2000⟩],
        [BridgeQueue.QSendEvent.attempt 1,
         BridgeQueue.QSendEvent.enqueued ⟨1, 2000⟩]) :=
  (c3_escalation_after_failures none none Fallback.SpawnOutcome.spawnError
    none 1 2000 []).2.2.2.2.2 rfl

/-- C4: every failure of the fallback path is caught and turned into a fixed
apology string — the catch branch of fallbackClaude yields the fixed
could-not-reach string — and when both primary attempts fail and the
fallback itself fails (spawn exception or non-zero exit), sendToCore still
hands its caller one of the two fixed apology strings rather than raising
(the embedding of sendToCore is a total function into CoreResponse). -/
theorem c4_fallback_never_raises (fb : Fallback.SpawnOutcome) (ce : Option (List Char))
    (hfb : fb = Fallback.SpawnOutcome.spawnError ∨
      ∃ out c, fb = Fallback.SpawnOutcome.ok out c ∧ c ≠ 0) :
    Fallback.fallbackClaude Fallback.SpawnOutcome.spawnError =
      Fallback.claudeSpawnErrorMsg ∧
    ((BridgeFallback.sendToCore none none fb ce).1.text = Fallback.claudeFailedMsg ∨
     (BridgeFallback.sendToCore none none fb ce).1.text = Fallback.claudeSpawnErrorMsg) := by
  refine ⟨rfl, ?_⟩
  rcases hfb with rfl | ⟨out, c, rfl, hc⟩
  · right; rfl
  · left
    simp [BridgeFallback.sendToCore, Fallback.fallbackClaude, hc]

theorem c4_fallback_never_raises_witness :
    (BridgeFallback.sendToCore none none Fallback.SpawnOutcome.spawnError
      none).1.text = Fallback.claudeFailedMsg ∨
    (BridgeFallback.sendToCore none none Fallback.SpawnOutcome.spawnError
      none).1.text = Fallback.claudeSpawnErrorMsg :=
  (c4_fallback_never_raises Fallback.SpawnOutcome.spawnError none (Or.inl rfl)).2

end Arisa
